import Mathlib

/-!
Verification of the ssml-builder core: XML escaping, node rendering,
builder state, and document assembly, embedded shallowly over `List Char`.
-/

/-- Strings are modelled as lists of characters. -/
abbrev Str := List Char

/-- Convert a Lean string literal to the `Str` model. -/
def str (s : String) : Str := s.toList

/-- The apostrophe character (code point 39). -/
def apos : Char := Char.ofNat 39

/-- One global single-character replacement pass, left to right, as performed
by `text.replace(/c/g, r)` in `src/utils/xml.ts` for a one-character pattern. -/
def replaceAll (t : Char) (r : Str) : Str → Str
  | [] => []
  | c :: rest => (if c = t then r else [c]) ++ replaceAll t r rest

def ampEnt : Str := ['&', 'a', 'm', 'p', ';']

def ltEnt : Str := ['&', 'l', 't', ';']

def gtEnt : Str := ['&', 'g', 't', ';']

def quotEnt : Str := ['&', 'q', 'u', 'o', 't', ';']

def aposEnt : Str := ['&', 'a', 'p', 'o', 's', ';']

/-- `escapeXml` from `src/utils/xml.ts` (identical to the protected method in
`src/core/SSMLElement.ts`): five sequential substitutions, ampersand first,
then left angle bracket, right angle bracket, double quote, single quote. -/
def escapeXml (s : Str) : Str :=
  replaceAll apos aposEnt
    (replaceAll '"' quotEnt
      (replaceAll '>' gtEnt
        (replaceAll '<' ltEnt
          (replaceAll '&' ampEnt s))))

/-- The per-character effect of the escaping pipeline: each of the five
special characters maps to its entity, every other character is untouched. -/
def escChar (c : Char) : Str :=
  if c = '&' then ampEnt
  else if c = '<' then ltEnt
  else if c = '>' then gtEnt
  else if c = '"' then quotEnt
  else if c = apos then aposEnt
  else [c]

/-- The five XML special characters. -/
def specialChar (c : Char) : Bool :=
  c = '&' || c = '<' || c = '>' || c = '"' || c = apos

/-- Decode the five XML entities back into their characters (the round-trip
direction of the spec's escaping property). -/
def decodeEntities : Str → Str
  | [] => []
  | c :: r =>
    if c = '&' then
      if r.take 4 = ['a', 'm', 'p', ';'] then '&' :: decodeEntities (r.drop 4)
      else if r.take 3 = ['l', 't', ';'] then '<' :: decodeEntities (r.drop 3)
      else if r.take 3 = ['g', 't', ';'] then '>' :: decodeEntities (r.drop 3)
      else if r.take 5 = ['q', 'u', 'o', 't', ';'] then '"' :: decodeEntities (r.drop 5)
      else if r.take 5 = ['a', 'p', 'o', 's', ';'] then apos :: decodeEntities (r.drop 5)
      else c :: decodeEntities r
    else c :: decodeEntities r
termination_by s => s.length
decreasing_by all_goals simp only [List.length_drop, List.length_cons]; omega

/-- A string is well escaped when every occurrence of a special character lies
inside one of the five entity sequences. -/
def wellEscaped : Str → Bool
  | [] => true
  | c :: r =>
    if c = '&' then
      if r.take 4 = ['a', 'm', 'p', ';'] then wellEscaped (r.drop 4)
      else if r.take 3 = ['l', 't', ';'] then wellEscaped (r.drop 3)
      else if r.take 3 = ['g', 't', ';'] then wellEscaped (r.drop 3)
      else if r.take 5 = ['q', 'u', 'o', 't', ';'] then wellEscaped (r.drop 5)
      else if r.take 5 = ['a', 'p', 'o', 's', ';'] then wellEscaped (r.drop 5)
      else false
    else !specialChar c && wellEscaped r
termination_by s => s.length
decreasing_by all_goals simp only [List.length_drop, List.length_cons]; omega

lemma replaceAll_append (t : Char) (r a b : Str) :
    replaceAll t r (a ++ b) = replaceAll t r a ++ replaceAll t r b := by
  induction a with
  | nil => rfl
  | cons c cs ih => simp [replaceAll, ih, List.append_assoc]

lemma escapeXml_cons (c : Char) (s : Str) :
    escapeXml (c :: s) = escChar c ++ escapeXml s := by
  by_cases h1 : c = '&'
  · subst h1; rfl
  by_cases h2 : c = '<'
  · subst h2; rfl
  by_cases h3 : c = '>'
  · subst h3; rfl
  by_cases h4 : c = '"'
  · subst h4; rfl
  by_cases h5 : c = apos
  · subst h5; rfl
  simp [escapeXml, replaceAll, escChar, h1, h2, h3, h4, h5]

lemma escapeXml_eq_flatten_map (s : Str) :
    escapeXml s = (s.map escChar).flatten := by
  induction s with
  | nil => rfl
  | cons c cs ih => rw [escapeXml_cons, ih]; simp

lemma decode_cons_ne (c : Char) (h : c ≠ '&') (xs : Str) :
    decodeEntities (c :: xs) = c :: decodeEntities xs := by
  simp [decodeEntities, h]

lemma decode_amp (x : Str) : decodeEntities (ampEnt ++ x) = '&' :: decodeEntities x := by
  simp [ampEnt, decodeEntities]

lemma decode_lt (x : Str) : decodeEntities (ltEnt ++ x) = '<' :: decodeEntities x := by
  simp [ltEnt, decodeEntities]

lemma decode_gt (x : Str) : decodeEntities (gtEnt ++ x) = '>' :: decodeEntities x := by
  simp [gtEnt, decodeEntities]

lemma decode_quot (x : Str) : decodeEntities (quotEnt ++ x) = '"' :: decodeEntities x := by
  simp [quotEnt, decodeEntities]

lemma decode_apos (x : Str) : decodeEntities (aposEnt ++ x) = apos :: decodeEntities x := by
  simp [aposEnt, decodeEntities]

lemma wellEscaped_amp (x : Str) : wellEscaped (ampEnt ++ x) = wellEscaped x := by
  simp [ampEnt, wellEscaped]

lemma wellEscaped_lt (x : Str) : wellEscaped (ltEnt ++ x) = wellEscaped x := by
  simp [ltEnt, wellEscaped]

lemma wellEscaped_gt (x : Str) : wellEscaped (gtEnt ++ x) = wellEscaped x := by
  simp [gtEnt, wellEscaped]

lemma wellEscaped_quot (x : Str) : wellEscaped (quotEnt ++ x) = wellEscaped x := by
  simp [quotEnt, wellEscaped]

lemma wellEscaped_apos (x : Str) : wellEscaped (aposEnt ++ x) = wellEscaped x := by
  simp [aposEnt, wellEscaped]

lemma wellEscaped_cons_ne (c : Char) (h : c ≠ '&') (xs : Str) :
    wellEscaped (c :: xs) = (!specialChar c && wellEscaped xs) := by
  simp [wellEscaped, h]

lemma decode_escape (t : Str) : decodeEntities (escapeXml t) = t := by
  induction t with
  | nil => rw [show escapeXml [] = [] from rfl]; simp [decodeEntities]
  | cons c cs ih =>
    rw [escapeXml_cons]
    by_cases h1 : c = '&'
    · subst h1; rw [show escChar '&' = ampEnt from rfl, decode_amp, ih]
    by_cases h2 : c = '<'
    · subst h2; rw [show escChar '<' = ltEnt from rfl, decode_lt, ih]
    by_cases h3 : c = '>'
    · subst h3; rw [show escChar '>' = gtEnt from rfl, decode_gt, ih]
    by_cases h4 : c = '"'
    · subst h4; rw [show escChar '"' = quotEnt from rfl, decode_quot, ih]
    by_cases h5 : c = apos
    · subst h5; rw [show escChar apos = aposEnt from rfl, decode_apos, ih]
    · rw [show escChar c = [c] from by simp [escChar, h1, h2, h3, h4, h5]]
      rw [List.singleton_append, decode_cons_ne c h1, ih]

lemma wellEscaped_escape (t : Str) : wellEscaped (escapeXml t) = true := by
  induction t with
  | nil => rw [show escapeXml [] = [] from rfl]; simp [wellEscaped]
  | cons c cs ih =>
    rw [escapeXml_cons]
    by_cases h1 : c = '&'
    · subst h1; rw [show escChar '&' = ampEnt from rfl, wellEscaped_amp, ih]
    by_cases h2 : c = '<'
    · subst h2; rw [show escChar '<' = ltEnt from rfl, wellEscaped_lt, ih]
    by_cases h3 : c = '>'
    · subst h3; rw [show escChar '>' = gtEnt from rfl, wellEscaped_gt, ih]
    by_cases h4 : c = '"'
    · subst h4; rw [show escChar '"' = quotEnt from rfl, wellEscaped_quot, ih]
    by_cases h5 : c = apos
    · subst h5; rw [show escChar apos = aposEnt from rfl, wellEscaped_apos, ih]
    · rw [show escChar c = [c] from by simp [escChar, h1, h2, h3, h4, h5]]
      rw [List.singleton_append, wellEscaped_cons_ne c h1, ih]
      simp [specialChar, h1, h2, h3, h4, h5]

lemma one_le_length_escChar (c : Char) : 1 ≤ (escChar c).length := by
  simp only [escChar]
  split <;> try simp [ampEnt, ltEnt, gtEnt, quotEnt, aposEnt]
  split <;> try simp [ltEnt]
  split <;> try simp [gtEnt]
  split <;> try simp [quotEnt]
  split <;> simp [aposEnt]

lemma length_le_escapeXml (s : Str) : s.length ≤ (escapeXml s).length := by
  induction s with
  | nil => simp
  | cons c cs ih =>
    rw [escapeXml_cons]
    simp only [List.length_append, List.length_cons]
    have := one_le_length_escChar c
    omega

lemma special_length_escChar (c : Char) (h : specialChar c = true) :
    4 ≤ (escChar c).length := by
  simp only [specialChar, Bool.or_eq_true, decide_eq_true_eq] at h
  rcases h with (((h | h) | h) | h) | h <;> subst h <;> decide

lemma length_lt_escapeXml (s : Str) (h : ∃ c ∈ s, specialChar c = true) :
    s.length < (escapeXml s).length := by
  induction s with
  | nil => simp at h
  | cons c cs ih =>
    rw [escapeXml_cons]
    simp only [List.length_append, List.length_cons]
    rcases h with ⟨d, hd, hspec⟩
    rcases List.mem_cons.mp hd with h1 | h1
    · subst h1
      have := special_length_escChar d hspec
      have := length_le_escapeXml cs
      omega
    · have := ih ⟨d, h1, hspec⟩
      have := one_le_length_escChar c
      omega

lemma amp_mem_escChar (c : Char) (h : specialChar c = true) : '&' ∈ escChar c := by
  simp only [specialChar, Bool.or_eq_true, decide_eq_true_eq] at h
  rcases h with (((h | h) | h) | h) | h <;> subst h <;> decide

lemma amp_mem_escapeXml (s : Str) (h : ∃ c ∈ s, specialChar c = true) :
    '&' ∈ escapeXml s := by
  rcases h with ⟨d, hd, hspec⟩
  induction s with
  | nil => simp at hd
  | cons c cs ih =>
    rw [escapeXml_cons]
    rcases List.mem_cons.mp hd with h1 | h1
    · subst h1; exact List.mem_append_left _ (amp_mem_escChar d hspec)
    · exact List.mem_append_right _ (ih h1)

/-- JavaScript truthiness of an optional string attribute value, as used by
the `if (this.options.x)` guards in the element render methods: absent and
empty-string values are both falsy. -/
def truthy : Option Str → Bool
  | none => false
  | some s => !s.isEmpty

/-- `BreakOptions` from `src/types`: optional strength and optional time. -/
structure BreakOptions where
  strength : Option Str
  time : Option Str
deriving DecidableEq

/-- `VoiceOptions`: voice name plus optional effect. -/
structure VoiceOptions where
  name : Str
  effect : Option Str
deriving DecidableEq

/-- `BackgroundAudioOptions`: src plus optional volume, fadein, fadeout. -/
structure BackgroundAudioOptions where
  src : Str
  volume : Option Str
  fadein : Option Str
  fadeout : Option Str
deriving DecidableEq

/-- `BreakElement.render` from `src/elements/BreakElement.ts`: no options
gives a bare tag; otherwise strength then time attributes, each emitted only
when truthy, joined by spaces. -/
def BreakElement.render (options : Option BreakOptions) : Str :=
  match options with
  | none => str "<break/>"
  | some o =>
    let attrs : List Str :=
      (if truthy o.strength then [str "strength=\"" ++ o.strength.getD [] ++ str "\""] else [])
        ++ (if truthy o.time then [str "time=\"" ++ o.time.getD [] ++ str "\""] else [])
    if attrs.length > 0 then
      str "<break " ++ List.intercalate (str " ") attrs ++ str "/>"
    else str "<break/>"

/-- `BackgroundAudioElement.render`: src always first, then volume, fadein,
fadeout, each only when truthy. -/
def BackgroundAudioElement.render (o : BackgroundAudioOptions) : Str :=
  str "<mstts:backgroundaudio " ++
    List.intercalate (str " ")
      ([str "src=\"" ++ o.src ++ str "\""] ++
        (if truthy o.volume then [str "volume=\"" ++ o.volume.getD [] ++ str "\""] else []) ++
        (if truthy o.fadein then [str "fadein=\"" ++ o.fadein.getD [] ++ str "\""] else []) ++
        (if truthy o.fadeout then [str "fadeout=\"" ++ o.fadeout.getD [] ++ str "\""] else [])) ++
    str "/>"

/-- `VoiceConversionElement.render`: one url attribute, self-closing. -/
def VoiceConversionElement.render (url : Str) : Str :=
  str "<mstts:voiceconversion url=\"" ++ url ++ str "\"/>"

/-- Markup nodes of the document tree. A `text` entry models a plain string
stored in a content list (the `string | SSMLElement` union of the source);
containers hold ordered content lists; `voice` models a `VoiceBuilder`
registered in the root builder's element list. -/
inductive Node where
  | text (s : Str)
  | brk (options : Option BreakOptions)
  | sub (original aliasText : Str)
  | bookmark (mark : Str)
  | paragraph (content : List Node)
  | sentence (content : List Node)
  | lang (tag : Str) (content : List Node)
  | voice (options : VoiceOptions) (content : List Node)

mutual

/-- `render()` of each node type, transcribed from the element classes.
Containers map each entry to escaped text or a recursive render and join
with no separator, exactly as `content.map(...).join('')` in the source. -/
def Node.render : Node → Str
  | .text s => escapeXml s
  | .brk o => BreakElement.render o
  | .sub original aliasText =>
      str "<sub alias=\"" ++ aliasText ++ str "\">" ++ escapeXml original ++ str "</sub>"
  | .bookmark mark => str "<bookmark mark=\"" ++ mark ++ str "\"/>"
  | .paragraph c => str "<p>" ++ renderList c ++ str "</p>"
  | .sentence c => str "<s>" ++ renderList c ++ str "</s>"
  | .lang tag c => str "<lang xml:lang=\"" ++ tag ++ str "\">" ++ renderList c ++ str "</lang>"
  | .voice o c =>
      str "<voice " ++
        List.intercalate (str " ")
          ([str "name=\"" ++ o.name ++ str "\""] ++
            (if truthy o.effect then [str "effect=\"" ++ o.effect.getD [] ++ str "\""] else [])) ++
        str ">" ++ renderList c ++ str "</voice>"

/-- Concatenation of rendered content-list entries in order. -/
def renderList : List Node → Str
  | [] => []
  | n :: rest => Node.render n ++ renderList rest

end

/-- Document options held by `SSMLBuilder`; the constructor fills version and
the two namespaces with fixed defaults and keeps the caller's language tag. -/
structure SSMLOptions where
  lang : Str
  version : Str
  xmlns : Str
  xmlnsMstts : Str
deriving DecidableEq

/-- The defaults merged in by the `SSMLBuilder` constructor. -/
def defaultOptions (lang : Str) : SSMLOptions :=
  ⟨lang, str "1.0", str "http://www.w3.org/2001/10/synthesis",
    str "https://www.w3.org/2001/mstts"⟩

/-- The root builder state: registered elements in order, document options,
and the two at-most-one directives. -/
structure SSMLBuilder where
  elements : List Node
  options : SSMLOptions
  backgroundAudioEl : Option BackgroundAudioOptions
  voiceConversionEl : Option Str

/-- A fresh `new SSMLBuilder({ lang })`. -/
def SSMLBuilder.create (lang : Str) : SSMLBuilder :=
  ⟨[], defaultOptions lang, none, none⟩

/-- `SSMLBuilder.build()`: the speak tag with four attributes in fixed order,
then background audio, voice conversion and each element, each child prefixed
by newline plus four spaces, then newline and the closing tag. -/
def SSMLBuilder.build (b : SSMLBuilder) : Str :=
  let attrs := List.intercalate (str " ")
    [str "version=\"" ++ b.options.version ++ str "\"",
     str "xmlns=\"" ++ b.options.xmlns ++ str "\"",
     str "xmlns:mstts=\"" ++ b.options.xmlnsMstts ++ str "\"",
     str "xml:lang=\"" ++ b.options.lang ++ str "\""]
  let c1 : Str := match b.backgroundAudioEl with
    | some o => str "\n    " ++ BackgroundAudioElement.render o
    | none => []
  let c2 : Str := c1 ++ (match b.voiceConversionEl with
    | some u => str "\n    " ++ VoiceConversionElement.render u
    | none => [])
  let content := c2 ++ (b.elements.map fun el => str "\n    " ++ el.render).flatten
  str "<speak " ++ attrs ++ str ">" ++ content ++ str "\n" ++ str "</speak>"

/-- `SSMLBuilder.voice(name, effect?)`: registers a fresh empty voice section
and returns its position as the handle of the returned `VoiceBuilder`. -/
def SSMLBuilder.voice (b : SSMLBuilder) (name : Str) (effect : Option Str) :
    SSMLBuilder × Nat :=
  ({ b with elements := b.elements ++ [Node.voice ⟨name, effect⟩ []] }, b.elements.length)

/-- `SSMLBuilder.backgroundAudio(options)`: overwrite the stored directive. -/
def SSMLBuilder.backgroundAudio (b : SSMLBuilder) (o : BackgroundAudioOptions) : SSMLBuilder :=
  { b with backgroundAudioEl := some o }

/-- `SSMLBuilder.voiceConversion(url)`: overwrite the stored directive. -/
def SSMLBuilder.voiceConversion (b : SSMLBuilder) (url : Str) : SSMLBuilder :=
  { b with voiceConversionEl := some url }

/-- `VoiceBuilder.build()`: delegates to the parent root builder, or throws
when the builder was constructed without one. The optional argument is the
back-reference, carrying the root's state at call time. -/
def VoiceBuilder.buildVB (parent : Option SSMLBuilder) : Except Str Str :=
  match parent with
  | none => Except.error (str "VoiceBuilder must be created from SSMLBuilder to use build()")
  | some p => Except.ok p.build

/-- `VoiceBuilder.voice(name, effect?)`: delegates to the parent root builder
to register a sibling section, or throws without a parent. -/
def VoiceBuilder.voiceVB (parent : Option SSMLBuilder) (name : Str) (effect : Option Str) :
    Except Str (SSMLBuilder × Nat) :=
  match parent with
  | none => Except.error (str "VoiceBuilder must be created from SSMLBuilder to chain voices")
  | some p => Except.ok (p.voice name effect)

/-- `render()` as a state transformer: the method body reads fields and
performs no assignment, so the state it leaves behind is its input. -/
def Node.renderState (n : Node) : Str × Node := (n.render, n)

/-- `build()` as a state transformer: the method body reads fields and
performs no assignment, so the state it leaves behind is its input. -/
def SSMLBuilder.buildState (b : SSMLBuilder) : Str × SSMLBuilder := (b.build, b)

/-- `this.content.push(entry)`, the single append primitive shared by every
container's content-adding methods. -/
def pushContent (content : List Node) (e : Node) : List Node := content ++ [e]

/-- A sequence of append operations executed in order against a content list. -/
def applyAppends (init : List Node) (ops : List Node) : List Node :=
  ops.foldl pushContent init

/-- The argument accepted by the overloaded `break` methods: either a plain
duration string or an optional options object. -/
inductive BreakArg where
  | timeStr (s : Str)
  | opts (o : Option BreakOptions)

/-- `VoiceBuilder.break(options?)` from the voice builder source: a string
argument is wrapped as `{ time: options }`, otherwise the options object is
passed through. -/
def VoiceBuilder.breakM (content : List Node) (arg : BreakArg) : List Node :=
  match arg with
  | .timeStr s => content ++ [Node.brk (some ⟨none, some s⟩)]
  | .opts o => content ++ [Node.brk o]

/-- `ParagraphElement.break(options?)`: same overload resolution as the voice
builder's method. -/
def ParagraphElement.breakM (content : List Node) (arg : BreakArg) : List Node :=
  match arg with
  | .timeStr s => content ++ [Node.brk (some ⟨none, some s⟩)]
  | .opts o => content ++ [Node.brk o]

/-- Replace the element at an index, leaving the rest unchanged. -/
def modifyIdx : List Node → Nat → (Node → Node) → List Node
  | [], _, _ => []
  | x :: xs, 0, f => f x :: xs
  | x :: xs, Nat.succ n, f => x :: modifyIdx xs n f

/-- `voiceBuilder.text(t)` seen through the root: the voice builder object at
index `i` of the root's element list gains one content entry. -/
def SSMLBuilder.voiceText (b : SSMLBuilder) (i : Nat) (t : Str) : SSMLBuilder :=
  { b with elements := modifyIdx b.elements i (fun n => match n with
      | Node.voice o c => Node.voice o (c ++ [Node.text t])
      | other => other) }

lemma applyAppends_eq (init ops : List Node) : applyAppends init ops = init ++ ops := by
  induction ops generalizing init with
  | nil => simp [applyAppends]
  | cons e es ih =>
    have h : applyAppends init (e :: es) = applyAppends (init ++ [e]) es := rfl
    rw [h, ih]
    simp

lemma renderList_append (a b : List Node) :
    renderList (a ++ b) = renderList a ++ renderList b := by
  induction a with
  | nil => rfl
  | cons n ns ih => simp [renderList, ih, List.append_assoc]

lemma renderList_eq_flatten_map (l : List Node) :
    renderList l = (l.map Node.render).flatten := by
  induction l with
  | nil => rfl
  | cons n ns ih => simp [renderList, ih]

/-- C1: the escape utility equals the five sequential substitutions in the
exact order ampersand, left angle, right angle, double quote, single quote;
it maps each character independently, changing only the five special
characters; its output has no special character outside the five entity
sequences; and decoding those entities in the output yields the input back. -/
theorem escapeXml_correct (t : Str) :
    escapeXml t
        = replaceAll apos aposEnt
            (replaceAll '"' quotEnt
              (replaceAll '>' gtEnt
                (replaceAll '<' ltEnt
                  (replaceAll '&' ampEnt t))))
      ∧ escapeXml t = (t.map escChar).flatten
      ∧ wellEscaped (escapeXml t) = true
      ∧ decodeEntities (escapeXml t) = t :=
  ⟨rfl, escapeXml_eq_flatten_map t, wellEscaped_escape t, decode_escape t⟩

/-- C9: the escape utility is not idempotent: for any string containing one
of the five special characters, escaping twice differs from escaping once. -/
theorem escapeXml_not_idempotent (t : Str) (h : ∃ c ∈ t, specialChar c = true) :
    escapeXml (escapeXml t) ≠ escapeXml t := by
  intro heq
  have hm : '&' ∈ escapeXml t := amp_mem_escapeXml t h
  have hlt : (escapeXml t).length < (escapeXml (escapeXml t)).length :=
    length_lt_escapeXml (escapeXml t) ⟨'&', hm, by simp [specialChar]⟩
  rw [heq] at hlt
  omega

/-- Witness for C9 at the one-character string consisting of an ampersand. -/
theorem escapeXml_not_idempotent_witness :
    escapeXml (escapeXml ['&']) ≠ escapeXml ['&'] :=
  escapeXml_not_idempotent ['&'] ⟨'&', by decide, by decide⟩

/-- C8: a Substitution renders as an open/close sub tag whose alias attribute
is embedded verbatim and whose body is the escaped original; a Bookmark with
mark m renders exactly the self-closing bookmark tag with m unescaped.
Concrete instances confirm the alias and mark stay verbatim even when they
contain special characters, while the sub body is escaped. -/
theorem sub_bookmark_render (original aliasText mark : Str) :
    Node.render (Node.sub original aliasText)
        = str "<sub alias=\"" ++ aliasText ++ str "\">" ++ escapeXml original ++ str "</sub>"
      ∧ Node.render (Node.bookmark mark) = str "<bookmark mark=\"" ++ mark ++ str "\"/>"
      ∧ Node.render (Node.bookmark (str "m1")) = str "<bookmark mark=\"m1\"/>"
      ∧ Node.render (Node.sub (str "AT&T") (str "A&B"))
          = str "<sub alias=\"A&B\">AT&amp;T</sub>" :=
  ⟨rfl, rfl, by decide, by decide⟩

/-- C10: the plain-string overload of the break method appends exactly the
node the time-only options form appends, on both the voice builder and the
paragraph element, so the rendered output is identical as well. -/
theorem break_string_overload_equiv (content : List Node) (s : Str) :
    VoiceBuilder.breakM content (BreakArg.timeStr s)
        = VoiceBuilder.breakM content (BreakArg.opts (some ⟨none, some s⟩))
      ∧ ParagraphElement.breakM content (BreakArg.timeStr s)
          = ParagraphElement.breakM content (BreakArg.opts (some ⟨none, some s⟩))
      ∧ renderList (VoiceBuilder.breakM content (BreakArg.timeStr s))
          = renderList (VoiceBuilder.breakM content (BreakArg.opts (some ⟨none, some s⟩)))
      ∧ renderList (ParagraphElement.breakM content (BreakArg.timeStr s))
          = renderList (ParagraphElement.breakM content (BreakArg.opts (some ⟨none, some s⟩))) :=
  ⟨rfl, rfl, rfl, rfl⟩

/-- C5: each directive lives in an at-most-one slot; a second call silently
replaces the first, so the state after two calls equals the state after the
second alone, the stored value is the second one, and the built document is
the document of the second value only. -/
theorem directives_last_write_wins (b : SSMLBuilder) (o1 o2 : BackgroundAudioOptions)
    (u1 u2 : Str) :
    (b.backgroundAudio o1).backgroundAudio o2 = b.backgroundAudio o2
      ∧ (b.voiceConversion u1).voiceConversion u2 = b.voiceConversion u2
      ∧ ((b.backgroundAudio o1).backgroundAudio o2).backgroundAudioEl = some o2
      ∧ ((b.voiceConversion u1).voiceConversion u2).voiceConversionEl = some u2
      ∧ ((b.backgroundAudio o1).backgroundAudio o2).build = (b.backgroundAudio o2).build
      ∧ ((b.voiceConversion u1).voiceConversion u2).build = (b.voiceConversion u2).build :=
  ⟨rfl, rfl, rfl, rfl, rfl, rfl⟩

/-- C4: render and build are pure: as state transformers they leave the node
and builder state exactly as given, and a second call on the state left by
the first returns a byte-identical string. -/
theorem render_build_pure (b : SSMLBuilder) (n : Node) :
    b.buildState.2 = b
      ∧ b.buildState.2.buildState.1 = b.buildState.1
      ∧ n.renderState.2 = n
      ∧ n.renderState.2.renderState.1 = n.renderState.1 :=
  ⟨rfl, rfl, rfl, rfl⟩

/-- C3: render order equals append order: content built by a sequence of
append operations renders as the concatenation of each entry's rendering in
operation order with no separators; string entries render escaped, and the
containers (paragraph, sentence, lang) wrap exactly this concatenation. -/
theorem content_render_order (init ops : List Node) :
    renderList (applyAppends init ops)
        = renderList init ++ (ops.map Node.render).flatten
      ∧ (∀ s : Str, Node.render (Node.text s) = escapeXml s)
      ∧ (∀ c, Node.render (Node.paragraph c) = str "<p>" ++ renderList c ++ str "</p>")
      ∧ (∀ c, Node.render (Node.sentence c) = str "<s>" ++ renderList c ++ str "</s>")
      ∧ (∀ tg c, Node.render (Node.lang tg c)
            = str "<lang xml:lang=\"" ++ tg ++ str "\">" ++ renderList c ++ str "</lang>") := by
  refine ⟨?_, fun s => rfl, fun c => rfl, fun c => rfl, fun tg c => rfl⟩
  rw [applyAppends_eq, renderList_append, renderList_eq_flatten_map,
    renderList_eq_flatten_map]

/-- C2: build returns the opening speak tag with exactly the four attributes
version, xmlns, xmlns:mstts, xml:lang in that fixed order, then inside the
background-audio directive if set, then the voice-conversion directive if
set, then every registered voice section in registration order, each child
preceded by a newline plus four-space indent, terminated by a newline and
the closing speak tag. -/
theorem build_shape (b : SSMLBuilder) :
    b.build = str "<speak version=\"" ++ b.options.version ++ str "\" xmlns=\""
        ++ b.options.xmlns ++ str "\" xmlns:mstts=\"" ++ b.options.xmlnsMstts
        ++ str "\" xml:lang=\"" ++ b.options.lang ++ str "\">"
      ++ (match b.backgroundAudioEl with
          | some o => str "\n    " ++ BackgroundAudioElement.render o
          | none => [])
      ++ (match b.voiceConversionEl with
          | some u => str "\n    " ++ VoiceConversionElement.render u
          | none => [])
      ++ (b.elements.map fun el => str "\n    " ++ el.render).flatten
      ++ str "\n</speak>" := by
  cases hb : b.backgroundAudioEl <;> cases hv : b.voiceConversionEl <;>
    simp [SSMLBuilder.build, hb, hv, List.intercalate, List.intersperse, str,
      List.append_assoc]

/-- A root builder that registered a voice section, appended text to it
through the returned voice builder, then registered a second sibling
section afterwards. -/
def exampleRoot : SSMLBuilder :=
  let s1 := (SSMLBuilder.create (str "en-US")).voice (str "en-US-AvaNeural") none
  let b1 := s1.1.voiceText s1.2 (str "Hello from Ava!")
  (b1.voice (str "en-US-AndrewNeural") none).1

/-- C6: build and the voice-switch on a voice builder without a parent root
throw immediately; a voice builder whose back-reference carries the root
never fails on build and returns the root's full current document, as the
concrete scenario shows for a sibling section registered after the handle
was created. -/
theorem voiceBuilder_parent_guard :
    (∀ n e, VoiceBuilder.buildVB none
          = Except.error (str "VoiceBuilder must be created from SSMLBuilder to use build()")
        ∧ VoiceBuilder.voiceVB none n e
          = Except.error (str "VoiceBuilder must be created from SSMLBuilder to chain voices"))
      ∧ (∀ b : SSMLBuilder, VoiceBuilder.buildVB (some b) = Except.ok b.build)
      ∧ (∀ b : SSMLBuilder, ∀ n e, VoiceBuilder.voiceVB (some b) n e = Except.ok (b.voice n e))
      ∧ VoiceBuilder.buildVB (some exampleRoot)
          = Except.ok (str "<speak version=\"1.0\" xmlns=\"http://www.w3.org/2001/10/synthesis\" xmlns:mstts=\"https://www.w3.org/2001/mstts\" xml:lang=\"en-US\">\n    <voice name=\"en-US-AvaNeural\">Hello from Ava!</voice>\n    <voice name=\"en-US-AndrewNeural\"></voice>\n</speak>") :=
  ⟨fun _ _ => ⟨rfl, rfl⟩, fun _ => rfl, fun _ _ _ => rfl, rfl⟩

/-- C7 counterexample: a BreakElement constructed with only `time`, set to
the empty string, renders the bare tag with no attributes rather than
exactly one time attribute: the empty string is falsy under the JavaScript
truthiness guard in the render method. -/
theorem breakRender_empty_time_counterexample :
    BreakElement.render (some ⟨none, some []⟩) = str "<break/>"
      ∧ BreakElement.render (some ⟨none, some []⟩) ≠ str "<break time=\"\"/>" :=
  ⟨by decide, by decide⟩

/-- C7 (amended): with no options a break renders the bare self-closing tag
with no attributes; with only a nonempty time it renders exactly the one
time attribute; with nonempty strength and time it renders both attributes,
strength first and time second. Empty-string values are treated as absent. -/
theorem breakRender_attrs (st t : Str) (hst : st ≠ []) (ht : t ≠ []) :
    BreakElement.render none = str "<break/>"
      ∧ BreakElement.render (some ⟨none, some t⟩) = str "<break time=\"" ++ t ++ str "\"/>"
      ∧ BreakElement.render (some ⟨some st, some t⟩)
          = str "<break strength=\"" ++ st ++ str "\" time=\"" ++ t ++ str "\"/>" := by
  cases st with
  | nil => exact absurd rfl hst
  | cons d ds =>
    cases t with
    | nil => exact absurd rfl ht
    | cons c cs =>
      refine ⟨rfl, ?_, ?_⟩ <;>
        simp [BreakElement.render, truthy, List.intercalate, List.intersperse, str,
          List.append_assoc]

/-- Witness for the amended C7 at strength medium and time 2s. -/
theorem breakRender_attrs_witness :
    BreakElement.render (some ⟨some (str "medium"), some (str "2s")⟩)
        = str "<break strength=\"medium\" time=\"2s\"/>" :=
  (breakRender_attrs (str "medium") (str "2s") (by decide) (by decide)).2.2
